import Mathlib

/-!
Verification of the coordinate-transform and overlay-geometry engine of the
wildlife-protection-area map application.

The definitions below are a shallow embedding of the TypeScript source:

* `src/utils/coordinateTransform.ts` — affine-transform estimation from three
  reference-point pairs (`calculateTransformMatrix`), Gaussian elimination with
  partial pivoting (`solveLinearSystem`), forward and inverse point transforms
  (`transformPDFToGeo`, `transformGeoToPDF`), rectangle-to-bounds conversion
  (`transformPDFBoundsToGeoBounds`), accuracy validation
  (`validateTransformAccuracy`) and the haversine distance
  (`calculateDistance`);
* `src/utils/geolocation.ts` — its own haversine distance
  (`geolocation.calculateDistance`);
* `src/utils/mapHelpers.ts` — overlay recentering (`updateOverlayPosition`).

JavaScript numbers are modelled by an arbitrary linear ordered field (exact
arithmetic); the trigonometric code is instantiated at `ℝ`.  Mutable arrays
are modelled by lists with explicit index updates, and each `for` loop becomes
a structurally recursive function carrying the loop counter together with the
exact number of remaining iterations, so concrete runs of the engine (used by
the witnesses and the counterexample below, instantiated at `ℚ`) unfold fully
through the equation lemmas.  JavaScript `throw` becomes an
`Except TransformError` result.
-/

namespace HunterMap

/-- Error taxonomy of the transform engine: one constructor per distinct
`throw new Error(...)` site in the source (insufficient reference points,
degenerate/collinear configuration, non-invertible transform, mismatched
point counts). -/
inductive TransformError where
  | insufficientPoints
  | degenerate
  | nonInvertible
  | mismatchedCounts
deriving DecidableEq

instance {ε β : Type*} [DecidableEq ε] [DecidableEq β] : DecidableEq (Except ε β)
  | .error a, .error b =>
      match decEq a b with
      | isTrue h => isTrue (h ▸ rfl)
      | isFalse h => isFalse (fun hh => h (Except.error.inj hh))
  | .error _, .ok _ => isFalse (fun hh => Except.noConfusion hh)
  | .ok _, .error _ => isFalse (fun hh => Except.noConfusion hh)
  | .ok a, .ok b =>
      match decEq a b with
      | isTrue h => isTrue (h ▸ rfl)
      | isFalse h => isFalse (fun hh => h (Except.ok.inj hh))

/-- A point on the PDF page, `interface PDFPoint { x, y }` (the source
interface also carries a `pageNumber` field which the transform engine never
reads; it is omitted here). -/
structure PDFPoint (α : Type*) where
  x : α
  y : α
deriving DecidableEq

/-- A geographic point, `interface MapPoint { lat, lng }`. -/
structure MapPoint (α : Type*) where
  lat : α
  lng : α
deriving DecidableEq

/-- The affine transform `interface TransformMatrix { a, b, c, d, e, f }`:
`lng = a·x + b·y + e`, `lat = c·x + d·y + f`. -/
structure TransformMatrix (α : Type*) where
  a : α
  b : α
  c : α
  d : α
  e : α
  f : α
deriving DecidableEq

variable {α : Type*} [LinearOrderedField α]

/-- Matrix entry access `m[i][j]` (in-bounds everywhere it is used; the
defaults mirror nothing observable). -/
def ent (m : List (List α)) (i j : Nat) : α := (m.getD i []).getD j 0

/-- Inner product of two lists (pairwise products, summed; truncated at the
shorter list). -/
def dot (xs ys : List α) : α := (List.zipWith (fun a b => a * b) xs ys).sum

/-- The singularity threshold `1e-10` used by `solveLinearSystem` and by
`transformGeoToPDF`. -/
def epsSingular : α := 1 / 10 ^ 10

/-- Pivot-selection loop of `solveLinearSystem`:
`for (k = i+1; k < n; k++) if (|aug[k][i]| > |aug[maxRow][i]|) maxRow = k`.
`steps` is the number of remaining iterations (`n - k`). -/
def pivotRowLoop (m : List (List α)) (i : Nat) : Nat → Nat → Nat → Nat
  | maxRow, _, 0 => maxRow
  | maxRow, k, steps+1 =>
      pivotRowLoop m i (if |ent m maxRow i| < |ent m k i| then k else maxRow) (k+1) steps

/-- Row swap `[aug[i], aug[j]] = [aug[j], aug[i]]`. -/
def swapRows (m : List (List α)) (i j : Nat) : List (List α) :=
  (m.set i (m.getD j [])).set j (m.getD i [])

/-- Row-update loop of the elimination step:
`for (j = i; j <= n; j++) row[j] -= factor * piv[j]` where `piv` is the pivot
row `aug[i]`.  `steps` is the number of remaining iterations (`n + 1 - j`). -/
def updateRowLoop (piv : List α) (factor : α) : List α → Nat → Nat → List α
  | row, _, 0 => row
  | row, j, steps+1 =>
      updateRowLoop piv factor (row.set j (row.getD j 0 - factor * piv.getD j 0)) (j+1) steps

/-- Elimination loop below the pivot:
`for (k = i+1; k < n; k++) { factor = aug[k][i]/aug[i][i]; update row k }`.
`steps` is the number of remaining iterations (`n - k`). -/
def elimBelowLoop (i n : Nat) : List (List α) → Nat → Nat → List (List α)
  | m, _, 0 => m
  | m, k, steps+1 =>
      let factor := ent m k i / ent m i i
      elimBelowLoop i n
        (m.set k (updateRowLoop (m.getD i []) factor (m.getD k []) i (n + 1 - i)))
        (k+1) steps

/-- Forward-elimination loop of `solveLinearSystem` (`for (i = 0; i < n; i++)`):
select the pivot row, swap it into position, fail with the degenerate error if
the pivot magnitude is below `1e-10`, otherwise eliminate below the pivot.
`steps` is the number of remaining iterations (`n - i`). -/
def forwardElim (n : Nat) : List (List α) → Nat → Nat → Except TransformError (List (List α))
  | m, _, 0 => .ok m
  | m, i, steps+1 =>
      let p := pivotRowLoop m i i (i+1) (n - (i+1))
      let m1 := swapRows m i p
      if |ent m1 i i| < epsSingular then .error .degenerate
      else forwardElim n (elimBelowLoop i n m1 (i+1) (n - (i+1))) (i+1) steps

/-- Back-substitution loop of `solveLinearSystem` (`for (i = n-1; i >= 0; i--)`):
`solution[i] = (aug[i][n] - Σ_{j=i+1}^{n-1} aug[i][j]·solution[j]) / aug[i][i]`.
The returned list holds `solution[i], …, solution[n-1]`; `steps = n - i`. -/
def backSubstFrom (aug : List (List α)) (n : Nat) : Nat → Nat → List α
  | _, 0 => []
  | i, steps+1 =>
      let rest := backSubstFrom aug n (i+1) steps
      let row := aug.getD i []
      ((row.getD n 0 - dot ((row.drop (i+1)).take (n - (i+1))) rest) / row.getD i 0) :: rest

/-- `solveLinearSystem(A, B)`: Gaussian elimination with partial pivoting on the
augmented matrix `A.map((row, i) => [...row, B[i]])`, followed by back
substitution.  Fails with the degenerate-configuration error when a pivot
magnitude falls below `1e-10`. -/
def solveLinearSystem (A : List (List α)) (B : List α) : Except TransformError (List α) :=
  let n := A.length
  let augmented := List.zipWith (fun row b => row ++ [b]) A B
  match forwardElim n augmented 0 n with
  | .error err => .error err
  | .ok aug => .ok (backSubstFrom aug n 0 n)

/-- `calculateTransformMatrix(pdfPoints, mapPoints)`: requires exactly three
points on each side (else the insufficient-reference-points error), builds the
6×6 system encoding `lng = a·x + b·y + e`, `lat = c·x + d·y + f` for the three
correspondences and solves it. -/
def calculateTransformMatrix (pdfPoints : List (PDFPoint α)) (mapPoints : List (MapPoint α)) :
    Except TransformError (TransformMatrix α) :=
  match pdfPoints, mapPoints with
  | [p1, p2, p3], [m1, m2, m3] =>
      let A : List (List α) := [
        [p1.x, p1.y, 1, 0, 0, 0],
        [0, 0, 0, p1.x, p1.y, 1],
        [p2.x, p2.y, 1, 0, 0, 0],
        [0, 0, 0, p2.x, p2.y, 1],
        [p3.x, p3.y, 1, 0, 0, 0],
        [0, 0, 0, p3.x, p3.y, 1]]
      let B : List α := [m1.lng, m1.lat, m2.lng, m2.lat, m3.lng, m3.lat]
      match solveLinearSystem A B with
      | .error err => .error err
      | .ok solution => .ok {
          a := solution.getD 0 0
          b := solution.getD 1 0
          e := solution.getD 2 0
          c := solution.getD 3 0
          d := solution.getD 4 0
          f := solution.getD 5 0 }
  | _, _ => .error .insufficientPoints

/-- `transformPDFToGeo(pdfPoint, matrix)`: forward affine transform
`lng = a·x + b·y + e`, `lat = c·x + d·y + f`. -/
def transformPDFToGeo (pdfPoint : PDFPoint α) (matrix : TransformMatrix α) : MapPoint α :=
  { lat := matrix.c * pdfPoint.x + matrix.d * pdfPoint.y + matrix.f
    lng := matrix.a * pdfPoint.x + matrix.b * pdfPoint.y + matrix.e }

/-- `transformGeoToPDF(mapPoint, matrix)`: inverse transform via the 2×2 matrix
inverse; fails with the non-invertible error when `|a·d - b·c| < 1e-10`. -/
def transformGeoToPDF (mapPoint : MapPoint α) (matrix : TransformMatrix α) :
    Except TransformError (PDFPoint α) :=
  let det := matrix.a * matrix.d - matrix.b * matrix.c
  if |det| < epsSingular then .error .nonInvertible
  else
    let invA := matrix.d / det
    let invB := -matrix.b / det
    let invC := -matrix.c / det
    let invD := matrix.a / det
    let invE := (matrix.b * matrix.f - matrix.d * matrix.e) / det
    let invF := (matrix.c * matrix.e - matrix.a * matrix.f) / det
    .ok { x := invA * mapPoint.lng + invB * mapPoint.lat + invE
          y := invC * mapPoint.lng + invD * mapPoint.lat + invF }

/-- The PDF page extent `{ minX, minY, maxX, maxY }`. -/
structure PDFBounds (α : Type*) where
  minX : α
  minY : α
  maxX : α
  maxY : α
deriving DecidableEq

/-- Geographic bounds `{ north, south, east, west }`. -/
structure GeoBounds (α : Type*) where
  north : α
  south : α
  east : α
  west : α
deriving DecidableEq

/-- `transformPDFBoundsToGeoBounds(pdfBounds, matrix)`: transform the four
corners (bottom-left, bottom-right, top-right, top-left) and take
`north = max` / `south = min` of the latitudes, `east = max` / `west = min` of
the longitudes (`Math.max`/`Math.min` over the four values, folded left). -/
def transformPDFBoundsToGeoBounds (pdfBounds : PDFBounds α) (matrix : TransformMatrix α) :
    GeoBounds α :=
  let t1 := transformPDFToGeo ⟨pdfBounds.minX, pdfBounds.minY⟩ matrix
  let t2 := transformPDFToGeo ⟨pdfBounds.maxX, pdfBounds.minY⟩ matrix
  let t3 := transformPDFToGeo ⟨pdfBounds.maxX, pdfBounds.maxY⟩ matrix
  let t4 := transformPDFToGeo ⟨pdfBounds.minX, pdfBounds.maxY⟩ matrix
  { north := max (max (max t1.lat t2.lat) t3.lat) t4.lat
    south := min (min (min t1.lat t2.lat) t3.lat) t4.lat
    east := max (max (max t1.lng t2.lng) t3.lng) t4.lng
    west := min (min (min t1.lng t2.lng) t3.lng) t4.lng }

/-- The third-party `google.maps.LatLngBounds` container as used by
`mapHelpers.ts`, modelled (following the spec's data model) as the plain value
type holding its south-west and north-east corners; the constructor stores the
two corners and `getSouthWest`/`getNorthEast` return them. -/
structure LatLngBounds (α : Type*) where
  southwest : MapPoint α
  northeast : MapPoint α
deriving DecidableEq

/-- Accessor `bounds.getNorthEast()`. -/
def LatLngBounds.getNorthEast (bounds : LatLngBounds α) : MapPoint α := bounds.northeast

/-- Accessor `bounds.getSouthWest()`. -/
def LatLngBounds.getSouthWest (bounds : LatLngBounds α) : MapPoint α := bounds.southwest

/-- `updateOverlayPosition(currentBounds, newCenter)` from `mapHelpers.ts`:
keep the current lat/lng spans and rebuild the bounds around the new center. -/
def updateOverlayPosition (currentBounds : LatLngBounds α) (newCenter : MapPoint α) :
    LatLngBounds α :=
  let northeast := currentBounds.getNorthEast
  let southwest := currentBounds.getSouthWest
  let latSpan := northeast.lat - southwest.lat
  let lngSpan := northeast.lng - southwest.lng
  { southwest := ⟨newCenter.lat - latSpan / 2, newCenter.lng - lngSpan / 2⟩
    northeast := ⟨newCenter.lat + latSpan / 2, newCenter.lng + lngSpan / 2⟩ }

/-- Spec-side predicate: the three source points lie on one straight line
(vanishing cross product of the two difference vectors). -/
def collinear (p1 p2 p3 : PDFPoint α) : Prop :=
  (p2.x - p1.x) * (p3.y - p1.y) - (p2.y - p1.y) * (p3.x - p1.x) = 0

instance (p1 p2 p3 : PDFPoint α) [DecidableEq α] : Decidable (collinear p1 p2 p3) := by
  unfold collinear; infer_instance

/-- Specification predicate: `x` solves every row equation of the augmented
matrix `m` (first `n` entries of a row are coefficients, entry `n` is the
right-hand side). -/
@[reducible] def solves (m : List (List α)) (n : Nat) (x : List α) : Prop :=
  ∀ k, k < n → dot ((m.getD k []).take n) x = (m.getD k []).getD n 0

/-- Invariant of forward elimination: every row from `i` on has zero entries in
the first `i` columns. -/
@[reducible] def zeroBelow (m : List (List α)) (n i : Nat) : Prop :=
  ∀ k, i ≤ k → k < n → ∀ j, j < i → ent m k j = 0

/-- Invariant of forward elimination: the first `i` rows are upper triangular
with pivots of magnitude at least `1e-10`. -/
@[reducible] def triUpTo (m : List (List α)) (i : Nat) : Prop :=
  ∀ k, k < i → (∀ j, j < k → ent m k j = 0) ∧ epsSingular ≤ |ent m k k|

/-- JavaScript `Math.atan2(y, x)` on real arguments. -/
noncomputable def atan2 (y x : ℝ) : ℝ :=
  if 0 < x then Real.arctan (y / x)
  else if x < 0 then
    (if 0 ≤ y then Real.arctan (y / x) + Real.pi else Real.arctan (y / x) - Real.pi)
  else
    (if 0 < y then Real.pi / 2 else if y < 0 then -(Real.pi / 2) else 0)

/-- `calculateDistance(point1, point2)` of `coordinateTransform.ts`: haversine
great-circle distance in meters, Earth radius `6371000`. -/
noncomputable def calculateDistance (point1 point2 : MapPoint ℝ) : ℝ :=
  let R : ℝ := 6371000
  let lat1Rad := point1.lat * Real.pi / 180
  let lat2Rad := point2.lat * Real.pi / 180
  let deltaLatRad := (point2.lat - point1.lat) * Real.pi / 180
  let deltaLngRad := (point2.lng - point1.lng) * Real.pi / 180
  let a := Real.sin (deltaLatRad / 2) * Real.sin (deltaLatRad / 2) +
    Real.cos lat1Rad * Real.cos lat2Rad *
    Real.sin (deltaLngRad / 2) * Real.sin (deltaLngRad / 2)
  let c := 2 * atan2 (Real.sqrt a) (Real.sqrt (1 - a))
  R * c

namespace geolocation

/-- `calculateDistance(lat1, lng1, lat2, lng2)` of `geolocation.ts`: haversine
great-circle distance in meters, Earth radius `6371000`. -/
noncomputable def calculateDistance (lat1 lng1 lat2 lng2 : ℝ) : ℝ :=
  let R : ℝ := 6371000
  let dLat := (lat2 - lat1) * Real.pi / 180
  let dLng := (lng2 - lng1) * Real.pi / 180
  let a :=
    Real.sin (dLat / 2) * Real.sin (dLat / 2) +
    Real.cos (lat1 * Real.pi / 180) * Real.cos (lat2 * Real.pi / 180) *
    Real.sin (dLng / 2) * Real.sin (dLng / 2)
  let c := 2 * atan2 (Real.sqrt a) (Real.sqrt (1 - a))
  R * c

end geolocation

/-- Accumulation loop of `validateTransformAccuracy`
(`for (i = 0; i < pdfPoints.length; i++) totalError += distance_i`);
`steps` is the number of remaining iterations. -/
noncomputable def totalErrorLoop (pdfPoints : List (PDFPoint ℝ)) (mapPoints : List (MapPoint ℝ))
    (matrix : TransformMatrix ℝ) : Nat → Nat → ℝ → ℝ
  | _, 0, acc => acc
  | i, steps+1, acc =>
      let transformed := transformPDFToGeo (pdfPoints.getD i ⟨0, 0⟩) matrix
      let actual := mapPoints.getD i ⟨0, 0⟩
      totalErrorLoop pdfPoints mapPoints matrix (i+1) steps (acc + calculateDistance transformed actual)

/-- `validateTransformAccuracy(pdfPoints, mapPoints, matrix)`: fails with the
mismatched-point-counts error when the two lists have different lengths,
otherwise returns the accumulated haversine error divided by the number of
points. -/
noncomputable def validateTransformAccuracy (pdfPoints : List (PDFPoint ℝ))
    (mapPoints : List (MapPoint ℝ)) (matrix : TransformMatrix ℝ) : Except TransformError ℝ :=
  if pdfPoints.length ≠ mapPoints.length then .error .mismatchedCounts
  else .ok (totalErrorLoop pdfPoints mapPoints matrix 0 pdfPoints.length 0 / pdfPoints.length)

/-! Helper lemmas. -/

theorem epsSingular_pos : (0 : α) < epsSingular := by norm_num [epsSingular]

theorem le_max4_1 (a b c d : α) : a ≤ max (max (max a b) c) d :=
  le_max_of_le_left (le_max_of_le_left (le_max_left a b))

theorem le_max4_2 (a b c d : α) : b ≤ max (max (max a b) c) d :=
  le_max_of_le_left (le_max_of_le_left (le_max_right a b))

theorem le_max4_3 (a b c d : α) : c ≤ max (max (max a b) c) d :=
  le_max_of_le_left (le_max_right (max a b) c)

theorem le_max4_4 (a b c d : α) : d ≤ max (max (max a b) c) d :=
  le_max_right (max (max a b) c) d

theorem min4_le_1 (a b c d : α) : min (min (min a b) c) d ≤ a :=
  min_le_of_left_le (min_le_of_left_le (min_le_left a b))

theorem min4_le_2 (a b c d : α) : min (min (min a b) c) d ≤ b :=
  min_le_of_left_le (min_le_of_left_le (min_le_right a b))

theorem min4_le_3 (a b c d : α) : min (min (min a b) c) d ≤ c :=
  min_le_of_left_le (min_le_right (min a b) c)

theorem min4_le_4 (a b c d : α) : min (min (min a b) c) d ≤ d :=
  min_le_right (min (min a b) c) d

theorem forwardElim_error_degenerate (n : Nat) :
    ∀ steps (m : List (List α)) i err, forwardElim n m i steps = .error err → err = .degenerate := by
  intro steps
  induction steps with
  | zero => intro m i err h; simp [forwardElim] at h
  | succ s ih =>
      intro m i err h
      simp only [forwardElim] at h
      split at h
      · exact (Except.error.inj h.symm)
      · exact ih _ _ _ h

theorem solveLinearSystem_error_degenerate (A : List (List α)) (B : List α) (err : TransformError)
    (h : solveLinearSystem A B = .error err) : err = .degenerate := by
  simp only [solveLinearSystem] at h
  split at h
  · exact forwardElim_error_degenerate _ _ _ _ _ (by rename_i heq; rw [heq, Except.error.injEq]; exact Except.error.inj h)
  · exact absurd h (by simp)

theorem length_eq_three {β : Type*} {l : List β} (h : l.length = 3) :
    ∃ a b c, l = [a, b, c] := by
  rcases l with _ | ⟨a, _ | ⟨b, _ | ⟨c, _ | ⟨d, tl⟩⟩⟩⟩ <;> simp at h
  exact ⟨a, b, c, rfl⟩

theorem atan2_zero_one : atan2 0 1 = 0 := by
  unfold atan2
  rw [if_pos (by norm_num : (0 : ℝ) < (1 : ℝ))]
  norm_num [Real.arctan_zero]

theorem calculateDistance_self (p : MapPoint ℝ) : calculateDistance p p = 0 := by
  simp only [calculateDistance, sub_self, zero_mul, zero_div, Real.sin_zero, mul_zero, zero_add,
    add_zero, Real.sqrt_zero, sub_zero, Real.sqrt_one, atan2_zero_one]

theorem calculateDistance_eq_geolocation (p1 p2 : MapPoint ℝ) :
    calculateDistance p1 p2 = geolocation.calculateDistance p1.lat p1.lng p2.lat p2.lng := rfl

theorem totalErrorLoop_eq (ps : List (PDFPoint ℝ)) (ms : List (MapPoint ℝ))
    (T : TransformMatrix ℝ) :
    ∀ steps i acc, i + steps = ps.length → ps.length = ms.length →
      totalErrorLoop ps ms T i steps acc =
        acc + (List.zipWith (fun p m => calculateDistance (transformPDFToGeo p T) m)
          (ps.drop i) (ms.drop i)).sum := by
  intro steps
  induction steps with
  | zero =>
      intro i acc hi _
      rw [List.drop_eq_nil_of_le (by omega)]
      simp [totalErrorLoop]
  | succ s ih =>
      intro i acc hi hlen
      have hips : i < ps.length := by omega
      have hims : i < ms.length := by omega
      rw [List.drop_eq_getElem_cons hips, List.drop_eq_getElem_cons hims]
      simp only [totalErrorLoop, List.zipWith_cons_cons, List.sum_cons]
      rw [ih (i+1) _ (by omega) hlen]
      rw [List.getD_eq_getElem ps _ hips, List.getD_eq_getElem ms _ hims]
      ring

theorem getD_set {β : Type*} : ∀ (l : List β) (i j : Nat) (a d : β),
    (l.set i a).getD j d = if i = j ∧ j < l.length then a else l.getD j d := by
  intro l
  induction l with
  | nil => intro i j a d; simp
  | cons x xs ih =>
      intro i j a d
      cases i with
      | zero =>
          cases j with
          | zero => simp
          | succ j => simp
      | succ i =>
          cases j with
          | zero => simp
          | succ j =>
              simp only [List.set_cons_succ, List.getD_cons_succ, List.length_cons]
              rw [ih]
              have hiff : (i = j ∧ j < xs.length) ↔ (i + 1 = j + 1 ∧ j + 1 < xs.length + 1) := by
                omega
              rw [if_congr hiff rfl rfl]

theorem getD_set_eq {β : Type*} (l : List β) {i : Nat} (a d : β) (h : i < l.length) :
    (l.set i a).getD i d = a := by
  rw [getD_set, if_pos ⟨rfl, h⟩]

theorem getD_set_ne {β : Type*} (l : List β) {i j : Nat} (a d : β) (h : i ≠ j) :
    (l.set i a).getD j d = l.getD j d := by
  rw [getD_set, if_neg (by rintro ⟨h1, -⟩; exact h h1)]

theorem getD_take {β : Type*} : ∀ (l : List β) (n j : Nat) (d : β), j < n →
    (l.take n).getD j d = l.getD j d := by
  intro l
  induction l with
  | nil => intro n j d h; simp
  | cons x xs ih =>
      intro n j d h
      cases n with
      | zero => omega
      | succ n =>
          cases j with
          | zero => rfl
          | succ j => exact ih n j d (by omega)

theorem drop_getD_cons {β : Type*} : ∀ (l : List β) (i : Nat) (d : β), i < l.length →
    l.drop i = l.getD i d :: l.drop (i + 1) := by
  intro l
  induction l with
  | nil => intro i d h; simp at h
  | cons x xs ih =>
      intro i d h
      cases i with
      | zero => rfl
      | succ i => exact ih i d (by simpa using h)

theorem dot_nil_right (xs : List α) : dot xs [] = 0 := by cases xs <;> rfl

theorem dot_cons_cons (a b : α) (xs ys : List α) :
    dot (a :: xs) (b :: ys) = a * b + dot xs ys := rfl

theorem dot_eq_sum : ∀ (xs ys : List α),
    dot xs ys = ∑ j ∈ Finset.range (min xs.length ys.length), xs.getD j 0 * ys.getD j 0 := by
  intro xs
  induction xs with
  | nil => intro ys; simp [dot]
  | cons a xs ih =>
      intro ys
      cases ys with
      | nil => simp [dot_nil_right]
      | cons b ys =>
          rw [dot_cons_cons, ih ys]
          simp only [List.length_cons, Nat.succ_min_succ]
          rw [Finset.sum_range_succ']
          simp only [List.getD_cons_succ, List.getD_cons_zero]
          ring

theorem updateRowLoop_length (piv : List α) (f : α) :
    ∀ steps row j, (updateRowLoop piv f row j steps).length = row.length := by
  intro steps
  induction steps with
  | zero => intro row j; rfl
  | succ s ih => intro row j; simp only [updateRowLoop]; rw [ih, List.length_set]

theorem updateRowLoop_getD (piv : List α) (f : α) :
    ∀ steps row j j', (updateRowLoop piv f row j steps).getD j' 0 =
      if j ≤ j' ∧ j' < j + steps ∧ j' < row.length
      then row.getD j' 0 - f * piv.getD j' 0 else row.getD j' 0 := by
  intro steps
  induction steps with
  | zero => intro row j j'; rw [updateRowLoop, if_neg (by omega)]
  | succ s ih =>
      intro row j j'
      simp only [updateRowLoop]
      rw [ih, List.length_set, getD_set]
      by_cases hjj : j = j'
      · subst hjj
        split_ifs <;> first | rfl | omega | ring
      · rw [if_neg (show ¬(j = j' ∧ j' < row.length) by rintro ⟨h, -⟩; exact hjj h)]
        split_ifs <;> first | rfl | omega

theorem swapRows_length (m : List (List α)) (i j : Nat) :
    (swapRows m i j).length = m.length := by
  simp [swapRows]

theorem swapRows_getD (m : List (List α)) (i j k : Nat) (hi : i < m.length)
    (hj : j < m.length) :
    (swapRows m i j).getD k [] =
      if k = j then m.getD i [] else if k = i then m.getD j [] else m.getD k [] := by
  unfold swapRows
  rw [getD_set, List.length_set]
  by_cases hkj : k = j
  · subst hkj
    rw [if_pos ⟨rfl, hj⟩, if_pos rfl]
  · rw [if_neg (by rintro ⟨h, -⟩; exact hkj h.symm), if_neg hkj, getD_set]
    by_cases hki : k = i
    · subst hki
      rw [if_pos ⟨rfl, hi⟩, if_pos rfl]
    · rw [if_neg (by rintro ⟨h, -⟩; exact hki h.symm), if_neg hki]

theorem elimBelowLoop_length (i n : Nat) :
    ∀ steps (m : List (List α)) k, (elimBelowLoop i n m k steps).length = m.length := by
  intro steps
  induction steps with
  | zero => intro m k; rfl
  | succ s ih => intro m k; simp only [elimBelowLoop]; rw [ih, List.length_set]

theorem elimBelowLoop_getD (i n : Nat) : ∀ steps (m : List (List α)) k r, i < k →
    (elimBelowLoop i n m k steps).getD r [] =
      if k ≤ r ∧ r < k + steps ∧ r < m.length
      then updateRowLoop (m.getD i []) (ent m r i / ent m i i) (m.getD r []) i (n + 1 - i)
      else m.getD r [] := by
  intro steps
  induction steps with
  | zero => intro m k r _; rw [elimBelowLoop, if_neg (by omega)]
  | succ s ih =>
      intro m k r hik
      simp only [elimBelowLoop]
      rw [ih _ (k + 1) r (by omega), List.length_set]
      rw [getD_set_ne m _ _ (by omega : k ≠ i)]
      by_cases hrk : r = k
      · subst hrk
        rw [if_neg (by omega)]
        by_cases hk : r < m.length
        · rw [getD_set_eq m _ _ hk, if_pos ⟨le_refl r, by omega, hk⟩]
        · rw [getD_set, if_neg (by omega), if_neg (by omega)]
      · rw [getD_set_ne m _ _ (fun h => hrk h.symm)]
        have hent1 : ent (m.set k (updateRowLoop (m.getD i [])
            (ent m k i / ent m i i) (m.getD k []) i (n + 1 - i))) r i = ent m r i := by
          unfold ent
          rw [getD_set_ne m _ _ (fun h => hrk h.symm)]
        have hent2 : ent (m.set k (updateRowLoop (m.getD i [])
            (ent m k i / ent m i i) (m.getD k []) i (n + 1 - i))) i i = ent m i i := by
          unfold ent
          rw [getD_set_ne m _ _ (by omega : k ≠ i)]
        rw [hent1, hent2]
        split_ifs <;> first | rfl | omega

theorem pivotRowLoop_bounds (m : List (List α)) (i n : Nat) :
    ∀ steps maxRow k, i ≤ maxRow → maxRow < n → i ≤ k → k + steps ≤ n →
      i ≤ pivotRowLoop m i maxRow k steps ∧ pivotRowLoop m i maxRow k steps < n := by
  intro steps
  induction steps with
  | zero => intro maxRow k h1 h2 _ _; exact ⟨h1, h2⟩
  | succ s ih =>
      intro maxRow k h1 h2 h3 h4
      simp only [pivotRowLoop]
      by_cases hc : |ent m maxRow i| < |ent m k i|
      · rw [if_pos hc]; exact ih k (k + 1) h3 (by omega) (by omega) (by omega)
      · rw [if_neg hc]; exact ih maxRow (k + 1) h1 h2 (by omega) (by omega)

theorem solves_swapRows (m : List (List α)) {n i p : Nat} (hlen : m.length = n)
    (hi : i < n) (hp : p < n) {x : List α}
    (h : solves (swapRows m i p) n x) : solves m n x := by
  intro k hk
  by_cases hki : k = i
  · subst hki
    have hh := h p hp
    rwa [swapRows_getD m k p p (by omega) (by omega), if_pos rfl] at hh
  · by_cases hkp : k = p
    · subst hkp
      have hh := h i hi
      rwa [swapRows_getD m i k i (by omega) (by omega),
        if_neg (fun hh' => hki hh'.symm), if_pos rfl] at hh
    · have hh := h k hk
      rwa [swapRows_getD m i p k (by omega) (by omega), if_neg hkp, if_neg hki] at hh

theorem dot_take_eq_sum (u x : List α) (n : Nat) (hu : u.length = n + 1) :
    dot (u.take n) x = ∑ j ∈ Finset.range (min n x.length), u.getD j 0 * x.getD j 0 := by
  rw [dot_eq_sum, List.length_take, hu, show min n (n + 1) = n from by omega]
  refine Finset.sum_congr rfl (fun j hj => ?_)
  rw [getD_take _ _ _ _ (by have := Finset.mem_range.mp hj; omega)]

theorem rowOK_of_update (row piv x : List α) (f : α) (n i : Nat)
    (hrow : row.length = n + 1) (hpiv : piv.length = n + 1) (hi : i ≤ n)
    (hz : ∀ j, j < i → piv.getD j 0 = 0)
    (h1 : dot ((updateRowLoop piv f row i (n + 1 - i)).take n) x =
      (updateRowLoop piv f row i (n + 1 - i)).getD n 0)
    (h2 : dot (piv.take n) x = piv.getD n 0) :
    dot (row.take n) x = row.getD n 0 := by
  have hulen : (updateRowLoop piv f row i (n + 1 - i)).length = n + 1 := by
    rw [updateRowLoop_length, hrow]
  have hpoint : ∀ j', j' ≤ n → (updateRowLoop piv f row i (n + 1 - i)).getD j' 0 =
      row.getD j' 0 - f * piv.getD j' 0 := by
    intro j' hj'
    rw [updateRowLoop_getD]
    by_cases hij : i ≤ j'
    · rw [if_pos ⟨hij, by omega, by omega⟩]
    · rw [if_neg (by omega), hz j' (by omega)]
      ring
  rw [dot_take_eq_sum _ _ _ hrow]
  rw [dot_take_eq_sum _ _ _ hulen, hpoint n (le_refl n)] at h1
  rw [dot_take_eq_sum _ _ _ hpiv] at h2
  have hsum : ∑ j ∈ Finset.range (min n x.length),
      (updateRowLoop piv f row i (n + 1 - i)).getD j 0 * x.getD j 0 =
    (∑ j ∈ Finset.range (min n x.length), row.getD j 0 * x.getD j 0) -
      f * ∑ j ∈ Finset.range (min n x.length), piv.getD j 0 * x.getD j 0 := by
    rw [Finset.mul_sum, ← Finset.sum_sub_distrib]
    refine Finset.sum_congr rfl (fun j hj => ?_)
    rw [hpoint j (by have := Finset.mem_range.mp hj; omega)]
    ring
  rw [hsum, h2] at h1
  linarith [h1]

theorem solves_elimBelowLoop (i n : Nat) (x : List α) :
    ∀ steps (m : List (List α)) k, i < k → m.length = n →
      (∀ r, r < n → (m.getD r []).length = n + 1) → i < n →
      (∀ j, j < i → ent m i j = 0) →
      solves (elimBelowLoop i n m k steps) n x → solves m n x := by
  intro steps
  induction steps with
  | zero => intro m k _ _ _ _ _ h; exact h
  | succ s ih =>
      intro m k hik hlen hrows hin hz h
      simp only [elimBelowLoop] at h
      have hm1len : (m.set k (updateRowLoop (m.getD i []) (ent m k i / ent m i i)
          (m.getD k []) i (n + 1 - i))).length = n := by
        rw [List.length_set, hlen]
      have hm1rows : ∀ r, r < n → ((m.set k (updateRowLoop (m.getD i [])
          (ent m k i / ent m i i) (m.getD k []) i (n + 1 - i))).getD r []).length = n + 1 := by
        intro r hr
        rw [getD_set]
        split_ifs with hcond
        · rw [updateRowLoop_length]
          exact hrows k (by omega)
        · exact hrows r hr
      have hm1z : ∀ j, j < i → ent (m.set k (updateRowLoop (m.getD i [])
          (ent m k i / ent m i i) (m.getD k []) i (n + 1 - i))) i j = 0 := by
        intro j hj
        unfold ent
        rw [getD_set_ne m _ _ (by omega : k ≠ i)]
        exact hz j hj
      have hs1 := ih _ (k + 1) (by omega) hm1len hm1rows hin hm1z h
      intro r hr
      by_cases hrk : r = k
      · subst hrk
        have hrowk := hs1 r hr
        rw [getD_set_eq m _ _ (by omega)] at hrowk
        have hrowi := hs1 i hin
        rw [getD_set_ne m _ _ (by omega : r ≠ i)] at hrowi
        exact rowOK_of_update (m.getD r []) (m.getD i []) x _ n i (hrows r hr)
          (hrows i hin) (by omega) hz hrowk hrowi
      · have hh := hs1 r hr
        rwa [getD_set_ne m _ _ (fun hh' => hrk hh'.symm)] at hh

theorem forwardElim_sound (n : Nat) :
    ∀ steps (m m' : List (List α)) i, i + steps = n →
      m.length = n → (∀ k, k < n → (m.getD k []).length = n + 1) →
      zeroBelow m n i → triUpTo m i →
      forwardElim n m i steps = .ok m' →
      m'.length = n ∧ (∀ k, k < n → (m'.getD k []).length = n + 1) ∧ triUpTo m' n ∧
        (∀ x, solves m' n x → solves m n x) := by
  intro steps
  induction steps with
  | zero =>
      intro m m' i hstep hlen hrows hzb ht h
      have hmm : m = m' := by simpa [forwardElim] using h
      subst hmm
      exact ⟨hlen, hrows, fun k hk => ht k (by omega), fun x hx => hx⟩
  | succ s ih =>
      intro m m' i hstep hlen hrows hzb ht h
      have hin : i < n := by omega
      simp only [forwardElim] at h
      set p := pivotRowLoop m i i (i + 1) (n - (i + 1)) with hp
      have hb := pivotRowLoop_bounds m i n (n - (i + 1)) i (i + 1) (le_refl i) hin
        (by omega) (by omega)
      rw [← hp] at hb
      obtain ⟨hpge, hplt⟩ := hb
      set m1 := swapRows m i p with hm1
      by_cases hpiv : |ent m1 i i| < epsSingular
      · rw [if_pos hpiv] at h
        exact absurd h (by simp)
      · rw [if_neg hpiv] at h
        push_neg at hpiv
        have hpivne : ent m1 i i ≠ 0 := by
          intro h0
          rw [h0, abs_zero] at hpiv
          exact absurd hpiv (not_le.mpr (epsSingular_pos (α := α)))
        have hm1len : m1.length = n := by rw [hm1, swapRows_length, hlen]
        have hm1row : ∀ k, k < n → (m1.getD k []).length = n + 1 := by
          intro k hk
          rw [hm1, swapRows_getD m i p k (by omega) (by omega)]
          split_ifs
          · exact hrows i hin
          · exact hrows p hplt
          · exact hrows k hk
        have hm1zb : zeroBelow m1 n i := by
          intro k hk1 hk2 j hj
          unfold ent
          rw [hm1, swapRows_getD m i p k (by omega) (by omega)]
          split_ifs
          · exact hzb i (le_refl i) hin j hj
          · exact hzb p hpge hplt j hj
          · exact hzb k hk1 hk2 j hj
        have hm1t : triUpTo m1 i := by
          intro k hk
          have heq : m1.getD k [] = m.getD k [] := by
            rw [hm1, swapRows_getD m i p k (by omega) (by omega),
              if_neg (by omega : ¬(k = p)), if_neg (by omega : ¬(k = i))]
          constructor
          · intro j hj
            unfold ent
            rw [heq]
            exact (ht k hk).1 j hj
          · unfold ent
            rw [heq]
            exact (ht k hk).2
        set m2 := elimBelowLoop i n m1 (i + 1) (n - (i + 1)) with hm2
        have hm2len : m2.length = n := by rw [hm2, elimBelowLoop_length, hm1len]
        have hgetD : ∀ r, i + 1 ≤ r → r < n → m2.getD r [] =
            updateRowLoop (m1.getD i []) (ent m1 r i / ent m1 i i) (m1.getD r []) i
              (n + 1 - i) := by
          intro r h1 h2
          rw [hm2, elimBelowLoop_getD i n _ m1 (i + 1) r (by omega),
            if_pos ⟨h1, by omega, by rw [hm1len]; omega⟩]
        have hunch : ∀ r, r ≤ i → m2.getD r [] = m1.getD r [] := by
          intro r hr
          rw [hm2, elimBelowLoop_getD i n _ m1 (i + 1) r (by omega), if_neg (by omega)]
        have hm2rows : ∀ k, k < n → (m2.getD k []).length = n + 1 := by
          intro k hk
          by_cases hki : i + 1 ≤ k
          · rw [hgetD k hki hk, updateRowLoop_length]
            exact hm1row k hk
          · rw [hunch k (by omega)]
            exact hm1row k hk
        have hm2zb : zeroBelow m2 n (i + 1) := by
          intro k hk1 hk2 j hj
          unfold ent
          rw [hgetD k hk1 hk2, updateRowLoop_getD]
          have hrl : (m1.getD k []).length = n + 1 := hm1row k hk2
          by_cases hji : j < i
          · rw [if_neg (by omega)]
            exact hm1zb k (by omega) hk2 j hji
          · have hjieq : j = i := by omega
            subst hjieq
            rw [if_pos ⟨le_refl j, by omega, by omega⟩]
            rw [show (m1.getD j []).getD j 0 = ent m1 j j from rfl,
              show (m1.getD k []).getD j 0 = ent m1 k j from rfl,
              div_mul_cancel₀ _ hpivne, sub_self]
        have hm2t : triUpTo m2 (i + 1) := by
          intro k hk
          by_cases hki : k < i
          · have heq := hunch k (by omega)
            constructor
            · intro j hj
              unfold ent
              rw [heq]
              exact (hm1t k hki).1 j hj
            · unfold ent
              rw [heq]
              exact (hm1t k hki).2
          · have hkeq : k = i := by omega
            subst hkeq
            have heq := hunch k (le_refl k)
            constructor
            · intro j hj
              unfold ent
              rw [heq]
              exact hm1zb k (le_refl k) hin j hj
            · unfold ent
              rw [heq]
              exact hpiv
        obtain ⟨hl', hr', ht', htrans⟩ := ih m2 m' (i + 1) (by omega) hm2len hm2rows hm2zb hm2t h
        refine ⟨hl', hr', ht', fun x hx => ?_⟩
        have h2 := htrans x hx
        rw [hm2] at h2
        have h1 : solves m1 n x :=
          solves_elimBelowLoop i n x (n - (i + 1)) m1 (i + 1) (by omega) hm1len hm1row hin
            (fun j hj => hm1zb i (le_refl i) hin j hj) h2
        rw [hm1] at h1
        exact solves_swapRows m hlen hin hplt h1

theorem backSubstFrom_length (m : List (List α)) (n : Nat) :
    ∀ steps i, (backSubstFrom m n i steps).length = steps := by
  intro steps
  induction steps with
  | zero => intro i; rfl
  | succ s ih => intro i; simp only [backSubstFrom, List.length_cons, ih]

theorem backSubst_solves (m : List (List α)) (n : Nat) (hlen : m.length = n)
    (hrows : ∀ k, k < n → (m.getD k []).length = n + 1) (ht : triUpTo m n) :
    ∀ steps i, i + steps = n →
      ∀ k, i ≤ k → k < n →
        dot (((m.getD k []).drop i).take (n - i)) (backSubstFrom m n i steps) =
          (m.getD k []).getD n 0 := by
  intro steps
  induction steps with
  | zero => intro i hi k hk1 hk2; omega
  | succ s ih =>
      intro i hi k hk1 hk2
      have hin : i < n := by omega
      have hrk : (m.getD k []).length = n + 1 := hrows k hk2
      simp only [backSubstFrom]
      rw [drop_getD_cons (m.getD k []) i 0 (by omega)]
      rw [show n - i = (n - (i + 1)) + 1 by omega]
      rw [List.take_succ_cons, dot_cons_cons]
      by_cases hki : k = i
      · subst hki
        have hne : (m.getD k []).getD k 0 ≠ 0 := by
          have habs := (ht k hk2).2
          intro h0
          unfold ent at habs
          rw [h0, abs_zero] at habs
          exact absurd habs (not_le.mpr (epsSingular_pos (α := α)))
        rw [mul_comm ((m.getD k []).getD k 0), div_mul_cancel₀ _ hne]
        ring
      · have hzero : (m.getD k []).getD i 0 = 0 := (ht k hk2).1 i (by omega)
        rw [hzero, zero_mul, zero_add]
        exact ih (i + 1) (by omega) k (by omega) hk2

theorem zipAug_getD : ∀ (A : List (List α)) (B : List α) (k : Nat),
    k < A.length → k < B.length →
    (List.zipWith (fun row b => row ++ [b]) A B).getD k [] = (A.getD k []) ++ [B.getD k 0] := by
  intro A
  induction A with
  | nil => intro B k h _; simp at h
  | cons r A ih =>
      intro B k h1 h2
      cases B with
      | nil => simp at h2
      | cons b B =>
          cases k with
          | zero => rfl
          | succ k => exact ih B k (by simpa using h1) (by simpa using h2)

theorem solveLinearSystem_solves (A : List (List α)) (B : List α)
    (hA : ∀ row ∈ A, row.length = A.length) (hB : B.length = A.length)
    (x : List α) (h : solveLinearSystem A B = .ok x) :
    x.length = A.length ∧ ∀ k, k < A.length → dot (A.getD k []) x = B.getD k 0 := by
  have hArow : ∀ k, k < A.length → (A.getD k []).length = A.length := by
    intro k hk
    rw [List.getD_eq_getElem _ _ (by omega)]
    exact hA _ (List.getElem_mem _)
  have haug_len : (List.zipWith (fun row b => row ++ [b]) A B).length = A.length := by
    rw [List.length_zipWith, hB, min_self]
  have haug_row : ∀ k, k < A.length →
      ((List.zipWith (fun row b => row ++ [b]) A B).getD k []).length = A.length + 1 := by
    intro k hk
    rw [zipAug_getD A B k (by omega) (by omega), List.length_append, hArow k hk]
    rfl
  simp only [solveLinearSystem] at h
  cases hfe : forwardElim A.length (List.zipWith (fun row b => row ++ [b]) A B) 0 A.length with
  | error err =>
      rw [hfe] at h
      simp at h
  | ok m' =>
      rw [hfe] at h
      simp only [Except.ok.injEq] at h
      obtain ⟨hl', hrows', ht', htrans⟩ := forwardElim_sound A.length A.length _ m' 0
        (by omega) haug_len haug_row (fun k _ _ j hj => by omega) (fun k hk => by omega) hfe
      have hsol := backSubst_solves m' A.length hl' hrows' ht' A.length 0 (by omega)
      have hslv : solves m' A.length (backSubstFrom m' A.length 0 A.length) := by
        intro k hk
        have hh := hsol k (by omega) hk
        rwa [List.drop_zero, Nat.sub_zero] at hh
      have hx := htrans _ hslv
      constructor
      · rw [← h, backSubstFrom_length]
      · intro k hk
        have hrow := hx k hk
        rw [zipAug_getD A B k (by omega) (by omega)] at hrow
        have htk : ((A.getD k []) ++ [B.getD k 0]).take A.length = A.getD k [] := by
          conv_lhs => rw [← hArow k hk]
          exact List.take_left _ _
        have hgd : ((A.getD k []) ++ [B.getD k 0]).getD A.length 0 = B.getD k 0 := by
          rw [List.getD_append_right _ _ _ _ (by rw [hArow k hk]), hArow k hk, Nat.sub_self]
          rfl
        rw [htk, hgd] at hrow
        rw [← h]
        exact hrow

/-! Claim theorems. -/

theorem pivotRowLoop_agree (m m' : List (List α)) (n i : Nat) (hin : i < n)
    (hag : ∀ k, k < n → ∀ j, j < n → ent m k j = ent m' k j) :
    ∀ steps maxRow k, maxRow < n → k + steps ≤ n →
      pivotRowLoop m i maxRow k steps = pivotRowLoop m' i maxRow k steps := by
  intro steps
  induction steps with
  | zero => intro maxRow k _ _; rfl
  | succ s ih =>
      intro maxRow k hmr hks
      simp only [pivotRowLoop]
      rw [hag maxRow hmr i hin, hag k (by omega) i hin]
      by_cases hc : |ent m' maxRow i| < |ent m' k i|
      · rw [if_pos hc]
        exact ih k (k + 1) (by omega) (by omega)
      · rw [if_neg hc]
        exact ih maxRow (k + 1) hmr (by omega)

theorem forwardElim_agree (n : Nat) :
    ∀ steps (m m' : List (List α)) i, i + steps = n →
      m.length = n → m'.length = n →
      (∀ k, k < n → (m.getD k []).length = n + 1) →
      (∀ k, k < n → (m'.getD k []).length = n + 1) →
      (∀ k, k < n → ∀ j, j < n → ent m k j = ent m' k j) →
      ((∃ r, forwardElim n m i steps = .ok r) ↔ (∃ r', forwardElim n m' i steps = .ok r')) := by
  intro steps
  induction steps with
  | zero =>
      intro m m' i _ _ _ _ _ _
      simp [forwardElim]
  | succ s ih =>
      intro m m' i hstep hl hl' hr hr' hag
      have hin : i < n := by omega
      simp only [forwardElim]
      have hpeq : pivotRowLoop m' i i (i + 1) (n - (i + 1)) =
          pivotRowLoop m i i (i + 1) (n - (i + 1)) :=
        (pivotRowLoop_agree m m' n i hin hag (n - (i + 1)) i (i + 1) hin (by omega)).symm
      rw [hpeq]
      set p := pivotRowLoop m i i (i + 1) (n - (i + 1)) with hp
      have hb := pivotRowLoop_bounds m i n (n - (i + 1)) i (i + 1) (le_refl i) hin
        (by omega) (by omega)
      rw [← hp] at hb
      obtain ⟨hpge, hplt⟩ := hb
      have hswE : ∀ k, k < n → ∀ j, j < n →
          ent (swapRows m i p) k j = ent (swapRows m' i p) k j := by
        intro k hk j hj
        unfold ent
        rw [swapRows_getD m i p k (by omega) (by omega),
          swapRows_getD m' i p k (by omega) (by omega)]
        split_ifs
        · exact hag i hin j hj
        · exact hag p hplt j hj
        · exact hag k hk j hj
      have hswD : ∀ k, k < n → ∀ j, j < n →
          ((swapRows m i p).getD k []).getD j 0 = ((swapRows m' i p).getD k []).getD j 0 :=
        hswE
      have hswr : ∀ k, k < n → ((swapRows m i p).getD k []).length = n + 1 := by
        intro k hk
        rw [swapRows_getD m i p k (by omega) (by omega)]
        split_ifs
        · exact hr i hin
        · exact hr p hplt
        · exact hr k hk
      have hswr' : ∀ k, k < n → ((swapRows m' i p).getD k []).length = n + 1 := by
        intro k hk
        rw [swapRows_getD m' i p k (by omega) (by omega)]
        split_ifs
        · exact hr' i hin
        · exact hr' p hplt
        · exact hr' k hk
      rw [show ent (swapRows m i p) i i = ent (swapRows m' i p) i i from hswE i hin i hin]
      by_cases hpiv : |ent (swapRows m' i p) i i| < epsSingular
      · simp [if_pos hpiv]
      · simp only [if_neg hpiv]
        have helimL : (elimBelowLoop i n (swapRows m i p) (i + 1) (n - (i + 1))).length = n := by
          rw [elimBelowLoop_length, swapRows_length, hl]
        have helimL' : (elimBelowLoop i n (swapRows m' i p) (i + 1) (n - (i + 1))).length = n := by
          rw [elimBelowLoop_length, swapRows_length, hl']
        have hgetDm : ∀ r, r < n →
            (elimBelowLoop i n (swapRows m i p) (i + 1) (n - (i + 1))).getD r [] =
              if i + 1 ≤ r then
                updateRowLoop ((swapRows m i p).getD i [])
                  (ent (swapRows m i p) r i / ent (swapRows m i p) i i)
                  ((swapRows m i p).getD r []) i (n + 1 - i)
              else (swapRows m i p).getD r [] := by
          intro r hrn
          rw [elimBelowLoop_getD i n _ _ (i + 1) r (by omega)]
          by_cases hw : i + 1 ≤ r
          · rw [if_pos ⟨hw, by omega, by rw [swapRows_length, hl]; omega⟩, if_pos hw]
          · rw [if_neg (by omega), if_neg hw]
        have hgetDm' : ∀ r, r < n →
            (elimBelowLoop i n (swapRows m' i p) (i + 1) (n - (i + 1))).getD r [] =
              if i + 1 ≤ r then
                updateRowLoop ((swapRows m' i p).getD i [])
                  (ent (swapRows m' i p) r i / ent (swapRows m' i p) i i)
                  ((swapRows m' i p).getD r []) i (n + 1 - i)
              else (swapRows m' i p).getD r [] := by
          intro r hrn
          rw [elimBelowLoop_getD i n _ _ (i + 1) r (by omega)]
          by_cases hw : i + 1 ≤ r
          · rw [if_pos ⟨hw, by omega, by rw [swapRows_length, hl']; omega⟩, if_pos hw]
          · rw [if_neg (by omega), if_neg hw]
        have helimR : ∀ k, k < n →
            ((elimBelowLoop i n (swapRows m i p) (i + 1) (n - (i + 1))).getD k []).length =
              n + 1 := by
          intro k hk
          rw [hgetDm k hk]
          by_cases hw : i + 1 ≤ k
          · rw [if_pos hw, updateRowLoop_length]
            exact hswr k hk
          · rw [if_neg hw]
            exact hswr k hk
        have helimR' : ∀ k, k < n →
            ((elimBelowLoop i n (swapRows m' i p) (i + 1) (n - (i + 1))).getD k []).length =
              n + 1 := by
          intro k hk
          rw [hgetDm' k hk]
          by_cases hw : i + 1 ≤ k
          · rw [if_pos hw, updateRowLoop_length]
            exact hswr' k hk
          · rw [if_neg hw]
            exact hswr' k hk
        have helimAg : ∀ k, k < n → ∀ j, j < n →
            ent (elimBelowLoop i n (swapRows m i p) (i + 1) (n - (i + 1))) k j =
              ent (elimBelowLoop i n (swapRows m' i p) (i + 1) (n - (i + 1))) k j := by
          intro k hk j hj
          unfold ent
          rw [hgetDm k hk, hgetDm' k hk]
          by_cases hw : i + 1 ≤ k
          · rw [if_pos hw, if_pos hw, updateRowLoop_getD, updateRowLoop_getD,
              hswr k hk, hswr' k hk]
            by_cases hcond : i ≤ j ∧ j < i + (n + 1 - i) ∧ j < n + 1
            · rw [if_pos hcond, if_pos hcond]
              rw [hswD k hk j hj, hswD i hin j hj, hswE k hk i hin, hswE i hin i hin]
            · rw [if_neg hcond, if_neg hcond]
              exact hswD k hk j hj
          · rw [if_neg hw, if_neg hw]
            exact hswD k hk j hj
        exact ih _ _ (i + 1) (by omega) helimL helimL' helimR helimR' helimAg

theorem solveLinearSystem_ok_agree (A : List (List α)) (B B' : List α)
    (hA : ∀ row ∈ A, row.length = A.length) (hB : B.length = A.length)
    (hB' : B'.length = A.length) (sol : List α)
    (h : solveLinearSystem A B = .ok sol) :
    ∃ sol', solveLinearSystem A B' = .ok sol' := by
  have hArow : ∀ k, k < A.length → (A.getD k []).length = A.length := by
    intro k hk
    rw [List.getD_eq_getElem _ _ (by omega)]
    exact hA _ (List.getElem_mem _)
  have haugL : (List.zipWith (fun row b => row ++ [b]) A B).length = A.length := by
    rw [List.length_zipWith, hB, min_self]
  have haugL' : (List.zipWith (fun row b => row ++ [b]) A B').length = A.length := by
    rw [List.length_zipWith, hB', min_self]
  have haugR : ∀ k, k < A.length →
      ((List.zipWith (fun row b => row ++ [b]) A B).getD k []).length = A.length + 1 := by
    intro k hk
    rw [zipAug_getD A B k (by omega) (by omega), List.length_append, hArow k hk]
    rfl
  have haugR' : ∀ k, k < A.length →
      ((List.zipWith (fun row b => row ++ [b]) A B').getD k []).length = A.length + 1 := by
    intro k hk
    rw [zipAug_getD A B' k (by omega) (by omega), List.length_append, hArow k hk]
    rfl
  have hagree : ∀ k, k < A.length → ∀ j, j < A.length →
      ent (List.zipWith (fun row b => row ++ [b]) A B) k j =
        ent (List.zipWith (fun row b => row ++ [b]) A B') k j := by
    intro k hk j hj
    unfold ent
    rw [zipAug_getD A B k (by omega) (by omega), zipAug_getD A B' k (by omega) (by omega),
      List.getD_append _ _ _ _ (by rw [hArow k hk]; omega),
      List.getD_append _ _ _ _ (by rw [hArow k hk]; omega)]
  simp only [solveLinearSystem] at h ⊢
  cases hfe : forwardElim A.length (List.zipWith (fun row b => row ++ [b]) A B) 0 A.length with
  | error err => rw [hfe] at h; simp at h
  | ok m1 =>
      have hiff := forwardElim_agree A.length A.length _ _ 0 (by omega) haugL haugL'
        haugR haugR' hagree
      obtain ⟨r', hr'⟩ := hiff.mp ⟨m1, hfe⟩
      rw [hr']
      exact ⟨_, rfl⟩

theorem sq3_eq_zero {a b c : α} (h : a * a + b * b + c * c = 0) :
    a = 0 ∧ b = 0 ∧ c = 0 := by
  refine ⟨mul_self_eq_zero.mp ?_, mul_self_eq_zero.mp ?_, mul_self_eq_zero.mp ?_⟩ <;>
    nlinarith [mul_self_nonneg a, mul_self_nonneg b, mul_self_nonneg c]

theorem collinear_affineDep (p1 p2 p3 : PDFPoint α) (h : collinear p1 p2 p3) :
    ∃ u v w : α, ¬(u = 0 ∧ v = 0 ∧ w = 0) ∧ u + v + w = 0 ∧
      u * p1.x + v * p2.x + w * p3.x = 0 ∧ u * p1.y + v * p2.y + w * p3.y = 0 := by
  unfold collinear at h
  by_cases hxx : p2.x = p1.x
  · by_cases hyy : p2.y = p1.y
    · refine ⟨1, -1, 0, ?_, by ring, by rw [hxx]; ring, by rw [hyy]; ring⟩
      rintro ⟨h1, -, -⟩
      exact one_ne_zero h1
    · have hyne : p2.y - p1.y ≠ 0 := sub_ne_zero.mpr hyy
      have h3x : p3.x = p1.x := by
        have h0 : (p2.y - p1.y) * (p3.x - p1.x) = 0 := by
          have hz : p2.x - p1.x = 0 := by rw [hxx]; ring
          linear_combination -h + (p3.y - p1.y) * hz
        rcases mul_eq_zero.mp h0 with h1 | h1
        · exact absurd h1 hyne
        · linarith
      refine ⟨1 - (p3.y - p1.y) / (p2.y - p1.y), (p3.y - p1.y) / (p2.y - p1.y), -1,
        ?_, by ring, ?_, ?_⟩
      · rintro ⟨-, -, h3⟩
        exact one_ne_zero (neg_eq_zero.mp h3)
      · rw [hxx, h3x]
        ring
      · field_simp
        ring
  · have hxne : p2.x - p1.x ≠ 0 := sub_ne_zero.mpr hxx
    refine ⟨1 - (p3.x - p1.x) / (p2.x - p1.x), (p3.x - p1.x) / (p2.x - p1.x), -1,
      ?_, by ring, ?_, ?_⟩
    · rintro ⟨-, -, h3⟩
      exact one_ne_zero (neg_eq_zero.mp h3)
    · field_simp
      ring
    · field_simp
      linear_combination -h

theorem length_eq_six {β : Type*} {l : List β} (h : l.length = 6) :
    ∃ a b c d e g, l = [a, b, c, d, e, g] := by
  rcases l with _ | ⟨a, _ | ⟨b, _ | ⟨c, _ | ⟨d, _ | ⟨e, _ | ⟨g, _ | ⟨x, tl⟩⟩⟩⟩⟩⟩⟩ <;> simp at h
  exact ⟨a, b, c, d, e, g, rfl⟩

/-- C4: Solver correctness — `solveLinearSystem` performs Gaussian elimination
with partial pivoting (the definition mirrors the source loop for loop:
largest-magnitude pivot selection, swap, singularity check against `1e-10`
after the swap, elimination below the pivot, back substitution), and whenever
it returns a solution vector without raising, that vector satisfies every row
equation of `A·x = B` exactly. -/
theorem solveLinearSystem_correct (A : List (List α)) (B : List α)
    (hA : ∀ row ∈ A, row.length = A.length) (hB : B.length = A.length)
    (x : List α) (h : solveLinearSystem A B = .ok x) :
    x.length = A.length ∧ ∀ k, k < A.length → dot (A.getD k []) x = B.getD k 0 :=
  solveLinearSystem_solves A B hA hB x h

theorem solveLinearSystem_correct_witness :
    dot (([[1, 2], [3, 4]] : List (List ℚ)).getD 0 []) [-4, 9 / 2] =
      ([5, 6] : List ℚ).getD 0 0 :=
  (solveLinearSystem_correct [[1, 2], [3, 4]] [5, 6] (by simp) (by simp) [-4, 9 / 2]
    (by norm_num [solveLinearSystem, forwardElim, pivotRowLoop, swapRows, elimBelowLoop,
      updateRowLoop, backSubstFrom, ent, dot, epsSingular, abs])).2 0 (by norm_num)

/-- C1 (amended): Fit-exactness of the estimator — whenever
`calculateTransformMatrix` succeeds on 3 source and 3 target points, the
resulting transform reproduces each fitted correspondence exactly.  (Success is
not guaranteed for every non-collinear configuration: a pivot of the 6×6
system can fall below the `1e-10` threshold even for non-collinear points, see
the counterexample.) -/
theorem calculateTransformMatrix_fit_exact (p1 p2 p3 : PDFPoint α) (m1 m2 m3 : MapPoint α)
    (T : TransformMatrix α)
    (h : calculateTransformMatrix [p1, p2, p3] [m1, m2, m3] = .ok T) :
    transformPDFToGeo p1 T = m1 ∧ transformPDFToGeo p2 T = m2 ∧ transformPDFToGeo p3 T = m3 := by
  obtain ⟨m1lat, m1lng⟩ := m1
  obtain ⟨m2lat, m2lng⟩ := m2
  obtain ⟨m3lat, m3lng⟩ := m3
  simp only [calculateTransformMatrix] at h
  cases hsv : solveLinearSystem
      [[p1.x, p1.y, 1, 0, 0, 0], [0, 0, 0, p1.x, p1.y, 1], [p2.x, p2.y, 1, 0, 0, 0],
        [0, 0, 0, p2.x, p2.y, 1], [p3.x, p3.y, 1, 0, 0, 0], [0, 0, 0, p3.x, p3.y, 1]]
      [m1lng, m1lat, m2lng, m2lat, m3lng, m3lat] with
  | error err => rw [hsv] at h; simp at h
  | ok sol =>
      rw [hsv] at h
      simp only [Except.ok.injEq] at h
      obtain ⟨hlen, hsolve⟩ := solveLinearSystem_solves _ _ (by simp) (by simp) sol hsv
      obtain ⟨x0, x1, x2, x3, x4, x5, rfl⟩ := length_eq_six (by simpa using hlen)
      have e0 := hsolve 0 (by norm_num)
      have e1 := hsolve 1 (by norm_num)
      have e2 := hsolve 2 (by norm_num)
      have e3 := hsolve 3 (by norm_num)
      have e4 := hsolve 4 (by norm_num)
      have e5 := hsolve 5 (by norm_num)
      norm_num [dot] at e0 e1 e2 e3 e4 e5
      subst h
      refine ⟨?_, ?_, ?_⟩
      · simp only [transformPDFToGeo]
        norm_num [MapPoint.mk.injEq]
        constructor
        · linear_combination e1
        · linear_combination e0
      · simp only [transformPDFToGeo]
        norm_num [MapPoint.mk.injEq]
        constructor
        · linear_combination e3
        · linear_combination e2
      · simp only [transformPDFToGeo]
        norm_num [MapPoint.mk.injEq]
        constructor
        · linear_combination e5
        · linear_combination e4

theorem calculateTransformMatrix_fit_exact_witness :
    transformPDFToGeo (⟨0, 0⟩ : PDFPoint ℚ) ⟨1, 0, 0, 1, 10, 5⟩ = ⟨5, 10⟩ ∧
      transformPDFToGeo (⟨1, 0⟩ : PDFPoint ℚ) ⟨1, 0, 0, 1, 10, 5⟩ = ⟨5, 11⟩ ∧
      transformPDFToGeo (⟨0, 1⟩ : PDFPoint ℚ) ⟨1, 0, 0, 1, 10, 5⟩ = ⟨6, 10⟩ :=
  calculateTransformMatrix_fit_exact ⟨0, 0⟩ ⟨1, 0⟩ ⟨0, 1⟩ ⟨5, 10⟩ ⟨5, 11⟩ ⟨6, 10⟩
    ⟨1, 0, 0, 1, 10, 5⟩
    (by norm_num [calculateTransformMatrix, solveLinearSystem, forwardElim, pivotRowLoop,
      swapRows, elimBelowLoop, updateRowLoop, backSubstFrom, ent, dot, epsSingular, abs])

/-- C1 counterexample: three source points that are not collinear, paired with
three target points, on which `calculateTransformMatrix` nevertheless raises
the degenerate-configuration error (the first pivot column has magnitude
`1e-11 < 1e-10`), refuting the claim that the estimator succeeds for every
non-collinear configuration. -/
theorem calculateTransformMatrix_noncollinear_failure :
    ¬ collinear (⟨0, 0⟩ : PDFPoint ℚ) ⟨1 / 10 ^ 11, 0⟩ ⟨0, 1 / 10 ^ 11⟩ ∧
      calculateTransformMatrix ([⟨0, 0⟩, ⟨1 / 10 ^ 11, 0⟩, ⟨0, 1 / 10 ^ 11⟩] : List (PDFPoint ℚ))
        [⟨0, 0⟩, ⟨0, 1⟩, ⟨1, 0⟩] = .error .degenerate := by
  constructor
  · norm_num [collinear]
  · norm_num [calculateTransformMatrix, solveLinearSystem, forwardElim, pivotRowLoop,
      swapRows, elimBelowLoop, updateRowLoop, backSubstFrom, ent, dot, epsSingular, abs]

/-- C2: Degeneracy detection — for any 3 collinear source points paired with
any 3 target points, `calculateTransformMatrix` raises the
degenerate-configuration error (some pivot of the 6×6 system falls below
`1e-10` in magnitude even after partial pivoting). -/
theorem calculateTransformMatrix_collinear_degenerate (p1 p2 p3 : PDFPoint α)
    (m1 m2 m3 : MapPoint α) (h : collinear p1 p2 p3) :
    calculateTransformMatrix [p1, p2, p3] [m1, m2, m3] = .error .degenerate := by
  simp only [calculateTransformMatrix]
  cases hsv : solveLinearSystem
      [[p1.x, p1.y, 1, 0, 0, 0], [0, 0, 0, p1.x, p1.y, 1], [p2.x, p2.y, 1, 0, 0, 0],
        [0, 0, 0, p2.x, p2.y, 1], [p3.x, p3.y, 1, 0, 0, 0], [0, 0, 0, p3.x, p3.y, 1]]
      [m1.lng, m1.lat, m2.lng, m2.lat, m3.lng, m3.lat] with
  | error err =>
      have hdeg := solveLinearSystem_error_degenerate _ _ _ hsv
      subst hdeg
      rfl
  | ok sol =>
      exfalso
      obtain ⟨u, v, w, hnz, hsum, hx, hy⟩ := collinear_affineDep p1 p2 p3 h
      obtain ⟨sol', hsv'⟩ := solveLinearSystem_ok_agree _ _ [u, 0, v, 0, w, 0]
        (by simp) (by simp) (by simp) sol hsv
      obtain ⟨hlen, hsolve⟩ := solveLinearSystem_solves _ _ (by simp) (by simp) sol' hsv'
      obtain ⟨x0, x1, x2, x3, x4, x5, rfl⟩ := length_eq_six (by simpa using hlen)
      have e0 := hsolve 0 (by norm_num)
      have e2 := hsolve 2 (by norm_num)
      have e4 := hsolve 4 (by norm_num)
      norm_num [dot] at e0 e2 e4
      have hsq : u * u + v * v + w * w = 0 := by
        linear_combination x0 * hx + x1 * hy + x2 * hsum - u * e0 - v * e2 - w * e4
      exact hnz (sq3_eq_zero hsq)

theorem calculateTransformMatrix_collinear_degenerate_witness :
    calculateTransformMatrix ([⟨0, 0⟩, ⟨10, 0⟩, ⟨20, 0⟩] : List (PDFPoint ℚ))
      [⟨35, 136⟩, ⟨36, 137⟩, ⟨37, 138⟩] = .error .degenerate :=
  calculateTransformMatrix_collinear_degenerate ⟨0, 0⟩ ⟨10, 0⟩ ⟨20, 0⟩
    ⟨35, 136⟩ ⟨36, 137⟩ ⟨37, 138⟩ (by norm_num [collinear])

/-- C3: Round-trip — for every transform whose determinant `a·d − b·c` has
absolute value at least `1e-10` and every point `p`,
`transformGeoToPDF (transformPDFToGeo p T) T` succeeds (raises no error) and
returns exactly `p`. -/
theorem transformGeoToPDF_roundTrip (matrix : TransformMatrix α) (p : PDFPoint α)
    (hdet : epsSingular ≤ |matrix.a * matrix.d - matrix.b * matrix.c|) :
    transformGeoToPDF (transformPDFToGeo p matrix) matrix = .ok p := by
  have hne : matrix.a * matrix.d - matrix.b * matrix.c ≠ 0 := by
    intro h0
    rw [h0, abs_zero] at hdet
    exact absurd hdet (not_le.mpr (epsSingular_pos (α := α)))
  obtain ⟨a, b, c, d, e, f⟩ := matrix
  obtain ⟨px, py⟩ := p
  simp only [transformGeoToPDF, transformPDFToGeo] at *
  rw [if_neg (not_lt.mpr hdet)]
  simp only [Except.ok.injEq, PDFPoint.mk.injEq]
  constructor
  · field_simp
    ring
  · field_simp
    ring

theorem transformGeoToPDF_roundTrip_witness :
    transformGeoToPDF (transformPDFToGeo (⟨2, 3⟩ : PDFPoint ℚ) ⟨1, 0, 0, 1, 10, 5⟩)
      ⟨1, 0, 0, 1, 10, 5⟩ = .ok ⟨2, 3⟩ :=
  transformGeoToPDF_roundTrip ⟨1, 0, 0, 1, 10, 5⟩ ⟨2, 3⟩ (by norm_num [epsSingular])

/-- C5: Bounds postcondition — `transformPDFBoundsToGeoBounds` returns exactly
the max/min of the four forward-transformed corner latitudes and longitudes;
consequently `north ≥ south`, `east ≥ west`, and each transformed corner lies
within or on the boundary of the returned bounds. -/
theorem transformPDFBoundsToGeoBounds_spec (b : PDFBounds α) (T : TransformMatrix α) :
    (transformPDFBoundsToGeoBounds b T).north =
      max (max (max (transformPDFToGeo ⟨b.minX, b.minY⟩ T).lat
        (transformPDFToGeo ⟨b.maxX, b.minY⟩ T).lat)
        (transformPDFToGeo ⟨b.maxX, b.maxY⟩ T).lat)
        (transformPDFToGeo ⟨b.minX, b.maxY⟩ T).lat
  ∧ (transformPDFBoundsToGeoBounds b T).south =
      min (min (min (transformPDFToGeo ⟨b.minX, b.minY⟩ T).lat
        (transformPDFToGeo ⟨b.maxX, b.minY⟩ T).lat)
        (transformPDFToGeo ⟨b.maxX, b.maxY⟩ T).lat)
        (transformPDFToGeo ⟨b.minX, b.maxY⟩ T).lat
  ∧ (transformPDFBoundsToGeoBounds b T).east =
      max (max (max (transformPDFToGeo ⟨b.minX, b.minY⟩ T).lng
        (transformPDFToGeo ⟨b.maxX, b.minY⟩ T).lng)
        (transformPDFToGeo ⟨b.maxX, b.maxY⟩ T).lng)
        (transformPDFToGeo ⟨b.minX, b.maxY⟩ T).lng
  ∧ (transformPDFBoundsToGeoBounds b T).west =
      min (min (min (transformPDFToGeo ⟨b.minX, b.minY⟩ T).lng
        (transformPDFToGeo ⟨b.maxX, b.minY⟩ T).lng)
        (transformPDFToGeo ⟨b.maxX, b.maxY⟩ T).lng)
        (transformPDFToGeo ⟨b.minX, b.maxY⟩ T).lng
  ∧ (transformPDFBoundsToGeoBounds b T).south ≤ (transformPDFBoundsToGeoBounds b T).north
  ∧ (transformPDFBoundsToGeoBounds b T).west ≤ (transformPDFBoundsToGeoBounds b T).east
  ∧ ((transformPDFBoundsToGeoBounds b T).south ≤ (transformPDFToGeo ⟨b.minX, b.minY⟩ T).lat
    ∧ (transformPDFToGeo ⟨b.minX, b.minY⟩ T).lat ≤ (transformPDFBoundsToGeoBounds b T).north
    ∧ (transformPDFBoundsToGeoBounds b T).west ≤ (transformPDFToGeo ⟨b.minX, b.minY⟩ T).lng
    ∧ (transformPDFToGeo ⟨b.minX, b.minY⟩ T).lng ≤ (transformPDFBoundsToGeoBounds b T).east)
  ∧ ((transformPDFBoundsToGeoBounds b T).south ≤ (transformPDFToGeo ⟨b.maxX, b.minY⟩ T).lat
    ∧ (transformPDFToGeo ⟨b.maxX, b.minY⟩ T).lat ≤ (transformPDFBoundsToGeoBounds b T).north
    ∧ (transformPDFBoundsToGeoBounds b T).west ≤ (transformPDFToGeo ⟨b.maxX, b.minY⟩ T).lng
    ∧ (transformPDFToGeo ⟨b.maxX, b.minY⟩ T).lng ≤ (transformPDFBoundsToGeoBounds b T).east)
  ∧ ((transformPDFBoundsToGeoBounds b T).south ≤ (transformPDFToGeo ⟨b.maxX, b.maxY⟩ T).lat
    ∧ (transformPDFToGeo ⟨b.maxX, b.maxY⟩ T).lat ≤ (transformPDFBoundsToGeoBounds b T).north
    ∧ (transformPDFBoundsToGeoBounds b T).west ≤ (transformPDFToGeo ⟨b.maxX, b.maxY⟩ T).lng
    ∧ (transformPDFToGeo ⟨b.maxX, b.maxY⟩ T).lng ≤ (transformPDFBoundsToGeoBounds b T).east)
  ∧ ((transformPDFBoundsToGeoBounds b T).south ≤ (transformPDFToGeo ⟨b.minX, b.maxY⟩ T).lat
    ∧ (transformPDFToGeo ⟨b.minX, b.maxY⟩ T).lat ≤ (transformPDFBoundsToGeoBounds b T).north
    ∧ (transformPDFBoundsToGeoBounds b T).west ≤ (transformPDFToGeo ⟨b.minX, b.maxY⟩ T).lng
    ∧ (transformPDFToGeo ⟨b.minX, b.maxY⟩ T).lng ≤ (transformPDFBoundsToGeoBounds b T).east) := by
  refine ⟨rfl, rfl, rfl, rfl, ?_, ?_, ?_, ?_, ?_, ?_⟩
  · exact le_trans (min4_le_1 _ _ _ _) (le_max4_1 _ _ _ _)
  · exact le_trans (min4_le_1 _ _ _ _) (le_max4_1 _ _ _ _)
  · exact ⟨min4_le_1 _ _ _ _, le_max4_1 _ _ _ _, min4_le_1 _ _ _ _, le_max4_1 _ _ _ _⟩
  · exact ⟨min4_le_2 _ _ _ _, le_max4_2 _ _ _ _, min4_le_2 _ _ _ _, le_max4_2 _ _ _ _⟩
  · exact ⟨min4_le_3 _ _ _ _, le_max4_3 _ _ _ _, min4_le_3 _ _ _ _, le_max4_3 _ _ _ _⟩
  · exact ⟨min4_le_4 _ _ _ _, le_max4_4 _ _ _ _, min4_le_4 _ _ _ _, le_max4_4 _ _ _ _⟩

/-- C6: Recenter span preservation — `updateOverlayPosition` preserves the
`north − south` and `east − west` spans exactly and the midpoint of the new
bounds equals the new center exactly. -/
theorem updateOverlayPosition_spec (currentBounds : LatLngBounds α) (newCenter : MapPoint α) :
    (updateOverlayPosition currentBounds newCenter).northeast.lat -
        (updateOverlayPosition currentBounds newCenter).southwest.lat =
      currentBounds.northeast.lat - currentBounds.southwest.lat
  ∧ (updateOverlayPosition currentBounds newCenter).northeast.lng -
        (updateOverlayPosition currentBounds newCenter).southwest.lng =
      currentBounds.northeast.lng - currentBounds.southwest.lng
  ∧ ((updateOverlayPosition currentBounds newCenter).southwest.lat +
        (updateOverlayPosition currentBounds newCenter).northeast.lat) / 2 = newCenter.lat
  ∧ ((updateOverlayPosition currentBounds newCenter).southwest.lng +
        (updateOverlayPosition currentBounds newCenter).northeast.lng) / 2 = newCenter.lng := by
  refine ⟨?_, ?_, ?_, ?_⟩ <;>
    simp only [updateOverlayPosition, LatLngBounds.getNorthEast, LatLngBounds.getSouthWest] <;>
    ring

/-- C7: Exactly-3 precondition — `calculateTransformMatrix` returns the
insufficient-reference-points error exactly when one of the two input lists
does not have length 3; in that case no linear system is consulted. -/
theorem calculateTransformMatrix_insufficient_iff (ps : List (PDFPoint α))
    (ms : List (MapPoint α)) :
    calculateTransformMatrix ps ms = .error .insufficientPoints ↔
      ¬(ps.length = 3 ∧ ms.length = 3) := by
  constructor
  · intro h hc
    obtain ⟨hps, hms⟩ := hc
    obtain ⟨p1, p2, p3, rfl⟩ := length_eq_three hps
    obtain ⟨m1, m2, m3, rfl⟩ := length_eq_three hms
    simp only [calculateTransformMatrix] at h
    cases hsv : solveLinearSystem
        [[p1.x, p1.y, 1, 0, 0, 0], [0, 0, 0, p1.x, p1.y, 1], [p2.x, p2.y, 1, 0, 0, 0],
          [0, 0, 0, p2.x, p2.y, 1], [p3.x, p3.y, 1, 0, 0, 0], [0, 0, 0, p3.x, p3.y, 1]]
        [m1.lng, m1.lat, m2.lng, m2.lat, m3.lng, m3.lat] with
    | error err =>
        have hdeg := solveLinearSystem_error_degenerate _ _ _ hsv
        subst hdeg
        rw [hsv] at h
        simp at h
    | ok sol =>
        rw [hsv] at h
        simp at h
  · intro h
    rcases ps with _ | ⟨p1, _ | ⟨p2, _ | ⟨p3, _ | ⟨p4, ptl⟩⟩⟩⟩ <;>
      rcases ms with _ | ⟨m1, _ | ⟨m2, _ | ⟨m3, _ | ⟨m4, mtl⟩⟩⟩⟩ <;>
      first
        | rfl
        | exact absurd ⟨rfl, rfl⟩ h

/-- C8: Validator contract — `validateTransformAccuracy` fails with the
mismatched-point-counts error exactly when the two lists have unequal lengths;
for equal lengths it returns the sum over all pairs of the haversine distance
between the forward-transformed source point and the target point, divided by
the number of pairs (the arithmetic mean). -/
theorem validateTransformAccuracy_spec (ps : List (PDFPoint ℝ)) (ms : List (MapPoint ℝ))
    (T : TransformMatrix ℝ) :
    (validateTransformAccuracy ps ms T = .error .mismatchedCounts ↔ ps.length ≠ ms.length)
  ∧ (ps.length = ms.length →
      validateTransformAccuracy ps ms T =
        .ok ((List.zipWith (fun p m => calculateDistance (transformPDFToGeo p T) m) ps ms).sum /
          ps.length)) := by
  constructor
  · by_cases h : ps.length = ms.length <;> simp [validateTransformAccuracy, h]
  · intro h
    rw [validateTransformAccuracy, if_neg (by omega)]
    have := totalErrorLoop_eq ps ms T ps.length 0 0 (by omega) h
    simp only [List.drop_zero, zero_add] at this
    rw [this]

theorem validateTransformAccuracy_spec_witness :
    validateTransformAccuracy [] [⟨0, 0⟩] ⟨1, 0, 0, 1, 0, 0⟩ = .error .mismatchedCounts
  ∧ validateTransformAccuracy [⟨0, 0⟩] [⟨0, 0⟩] ⟨0, 0, 0, 0, 0, 0⟩ = .ok 0 := by
  constructor
  · exact (validateTransformAccuracy_spec [] [⟨0, 0⟩] ⟨1, 0, 0, 1, 0, 0⟩).1.mpr (by simp)
  · have h := (validateTransformAccuracy_spec [⟨0, 0⟩] [⟨0, 0⟩] ⟨0, 0, 0, 0, 0, 0⟩).2 rfl
    rw [h]
    norm_num [transformPDFToGeo]
    exact calculateDistance_self ⟨0, 0⟩

/-- C9: Shared distance utility — the haversine distance of the transform
module and the haversine distance of the geolocation module compute the same
value on every pair of geographic points, and both return 0 for identical
points. -/
theorem calculateDistance_agree (p1 p2 : MapPoint ℝ) :
    calculateDistance p1 p2 = geolocation.calculateDistance p1.lat p1.lng p2.lat p2.lng
  ∧ calculateDistance p1 p1 = 0
  ∧ geolocation.calculateDistance p1.lat p1.lng p1.lat p1.lng = 0 :=
  ⟨calculateDistance_eq_geolocation p1 p2, calculateDistance_self p1, by
    rw [← calculateDistance_eq_geolocation]; exact calculateDistance_self p1⟩

end HunterMap
